import Mathlib

/-!
Verification of the incremental product-hierarchy synchronization engine of
the akeneo-migrator repository.

The engine lives in two Go modules:
* `internal/product/syncing` (the "hierarchy copier", `Service.Sync` together
  with `syncChildProducts`, `syncChildModels`, `syncVariantProducts`);
* `internal/product/syncing_since` (the orchestrator `Service.Sync`, the root
  resolvers `findModelRoot` / `findProductRoot`, and the batch filters
  `filterCommonModels` / `filterCommonProducts`).

Supporting collaborators are the Akeneo client (`cleanProduct`,
`cleanProductModel`, `GetProduct`, `GetProductModel`, `GetProductsByParent`,
`GetProductModelsByParent`) and the repositories wrapping them.

The embedding below translates these functions into pure Lean functions.
A product / product model is an open attribute map (Go `map[string]interface{}`),
modelled as an association list over an opaque value type.  The source
instance is a pure store; the destination instance is a pair of key-indexed
stores together with a deterministic failure policy standing for the
destination rejecting individual writes.  Every destination write attempt is
additionally recorded in an explicit trace so that ordering and isolation
properties can be stated about the write sequence.
-/

namespace Migrator

/-- A value held in the open attribute map of a node (Go `interface{}`).
`str` is a JSON string, `null` a JSON null (Go `nil` interface value),
`other n` any other opaque non-null, non-string value. -/
inductive AttrVal where
  | str : String → AttrVal
  | null : AttrVal
  | other : Nat → AttrVal
deriving DecidableEq

/-- A product or product model: an open string-keyed attribute mapping
(Go `type Product map[string]interface{}` / `type ProductModel map[string]interface{}`). -/
abbrev Product := List (String × AttrVal)

/-- Go string type assertion `p[k].(string)`: `some s` when key `k` is present
with a string value, `none` when the key is absent or holds a non-string value
(in Go the assertion then yields `"", false`). -/
def getStr (p : Product) (k : String) : Option String :=
  match p.lookup k with
  | some (AttrVal.str s) => some s
  | _ => none

/-- Go `v, _ := p[k].(string)`: the asserted string with the zero value `""`
when the assertion fails. -/
def getStrD (p : Product) (k : String) : String :=
  (getStr p k).getD ""

/-- The source Akeneo instance, a pure read-only store of products and
product models. -/
structure Source where
  products : List Product
  models : List Product

/-- `SourceProductRepository.FindByIdentifier` / client `GetProduct`:
fetch the product whose `identifier` attribute is the given key,
`none` standing for the not-found error. -/
def FindByIdentifier (s : Source) (id : String) : Option Product :=
  s.products.find? (fun p => getStrD p "identifier" == id)

/-- `SourceProductRepository.FindModelByCode` / client `GetProductModel`:
fetch the product model whose `code` attribute is the given key. -/
def FindModelByCode (s : Source) (code : String) : Option Product :=
  s.models.find? (fun m => getStrD m "code" == code)

/-- `SourceProductRepository.FindProductsByParent` / client
`GetProductsByParent`: all products whose `parent` attribute equals the given
parent code (the client issues the search filter `parent = parentCode`). -/
def FindProductsByParent (s : Source) (parentCode : String) : List Product :=
  s.products.filter (fun p => getStrD p "parent" == parentCode)

/-- `SourceProductRepository.FindModelsByParent` / client
`GetProductModelsByParent`: all product models whose `parent` attribute
equals the given parent code. -/
def FindModelsByParent (s : Source) (parentCode : String) : List Product :=
  s.models.filter (fun m => getStrD m "parent" == parentCode)

/-- The deny-list of volatile fields stripped by the client before any write
(`cleanProduct` / `cleanProductModel`). -/
def excludedFields : List String := ["_links", "created", "updated"]

/-- Client `cleanProduct`: drop the deny-listed metadata fields and every
key whose value is `nil`; keep all remaining key/value pairs. -/
def cleanProduct (productData : Product) : Product :=
  productData.filter (fun kv => !(excludedFields.contains kv.1) && kv.2 != AttrVal.null)

/-- Client `cleanProductModel`: same cleaning as `cleanProduct`, applied to a
product model payload. -/
def cleanProductModel (model : Product) : Product :=
  model.filter (fun kv => !(excludedFields.contains kv.1) && kv.2 != AttrVal.null)

/-- One destination write attempt, as recorded in the write trace:
the key written (URL identifier / code), the raw payload handed to the
repository `Save` / `SaveModel`, and whether the destination accepted it. -/
inductive WriteEvent where
  | saveProduct : String → Product → Bool → WriteEvent
  | saveModel : String → Product → Bool → WriteEvent
deriving DecidableEq

/-- The key a write event targets. -/
def eventKey : WriteEvent → String
  | WriteEvent.saveProduct k _ _ => k
  | WriteEvent.saveModel k _ _ => k

/-- Whether a write event is a product-model write. -/
def isModelWrite : WriteEvent → Bool
  | WriteEvent.saveProduct _ _ _ => false
  | WriteEvent.saveModel _ _ _ => true

/-- Whether the destination accepted the write. -/
def eventOk : WriteEvent → Bool
  | WriteEvent.saveProduct _ _ ok => ok
  | WriteEvent.saveModel _ _ ok => ok

/-- Deterministic failure policy of the destination instance: `failP k p`
(`failM k m`) holds when the destination rejects the product (model) write
`PatchProduct k p` (`PatchProductModel k m`) — a validation or transport
error on that call. -/
structure DestEnv where
  failP : String → Product → Bool
  failM : String → Product → Bool

/-- A destination environment in which every write succeeds. -/
def envOK : DestEnv :=
  { failP := fun _ _ => false, failM := fun _ _ => false }

/-- The destination Akeneo instance: products keyed by identifier and product
models keyed by code.  `DestProductRepository.Save` / `SaveModel` upsert into
these stores. -/
structure Dest where
  products : String → Option Product
  models : String → Option Product

/-- The empty destination. -/
def destEmpty : Dest :=
  { products := fun _ => none, models := fun _ => none }

/-- Effect of one write attempt on the destination.  A successful
`PatchProduct` / `PatchProductModel` upserts the cleaned payload under the
given key; a rejected write leaves the destination unchanged. -/
def destApply (d : Dest) : WriteEvent → Dest
  | WriteEvent.saveProduct k p true =>
      { d with products := fun x => if x = k then some (cleanProduct p) else d.products x }
  | WriteEvent.saveModel k m true =>
      { d with models := fun x => if x = k then some (cleanProductModel m) else d.models x }
  | _ => d

/-- Effect of a sequence of write attempts on the destination. -/
def destApplyAll (d : Dest) (es : List WriteEvent) : Dest :=
  es.foldl destApply d

/-- `syncing.SyncResult` (hierarchy copier result).  The `error` field is
declared in the Go struct but never assigned by the copier. -/
structure HSyncResult where
  identifier : String
  success : Bool
  error : String
  modelsSynced : Nat
  productsSynced : Nat
  totalSynced : Nat
deriving DecidableEq

/-- Mutable state threaded through one hierarchy copy: the destination, the
recorded write trace, and the two counters of `syncing.SyncResult`. -/
structure CopyState where
  dest : Dest
  trace : List WriteEvent
  modelsSynced : Nat
  productsSynced : Nat

/-- One iteration of the loop body of `syncChildProducts` (and of the inner
loop of `syncVariantProducts`): skip the product when its `identifier`
attribute is missing or empty; otherwise attempt the destination write,
record it, and count it only when the destination accepted it. -/
def childProdStep (env : DestEnv) (st : CopyState) (prod : Product) : CopyState :=
  let identifier := getStrD prod "identifier"
  if identifier = "" then st
  else
    let ok := !env.failP identifier prod
    let e := WriteEvent.saveProduct identifier prod ok
    { dest := destApply st.dest e
      trace := st.trace ++ [e]
      modelsSynced := st.modelsSynced
      productsSynced := if ok then st.productsSynced + 1 else st.productsSynced }

/-- One iteration of the loop body of `syncChildModels`: skip the model when
its `code` attribute is missing or empty; otherwise attempt the destination
write, record it, and count it only when the destination accepted it. -/
def childModelStep (env : DestEnv) (st : CopyState) (model : Product) : CopyState :=
  let code := getStrD model "code"
  if code = "" then st
  else
    let ok := !env.failM code model
    let e := WriteEvent.saveModel code model ok
    { dest := destApply st.dest e
      trace := st.trace ++ [e]
      modelsSynced := if ok then st.modelsSynced + 1 else st.modelsSynced
      productsSynced := st.productsSynced }

/-- `syncing.Service.syncChildProducts`: list every product whose parent is
`parentCode` and run the write loop over them. -/
def syncChildProducts (src : Source) (env : DestEnv) (parentCode : String)
    (st : CopyState) : CopyState :=
  (FindProductsByParent src parentCode).foldl (childProdStep env) st

/-- `syncing.Service.syncChildModels`: list every product model whose parent
is `parentCode` and run the write loop over them. -/
def syncChildModels (src : Source) (env : DestEnv) (parentCode : String)
    (st : CopyState) : CopyState :=
  (FindModelsByParent src parentCode).foldl (childModelStep env) st

/-- One iteration of the outer loop of `syncVariantProducts`: skip the model
when its `code` is missing or empty, otherwise run the product write loop
over the products whose parent is that code. -/
def variantStep (src : Source) (env : DestEnv) (st : CopyState) (model : Product) :
    CopyState :=
  let modelCode := getStrD model "code"
  if modelCode = "" then st
  else (FindProductsByParent src modelCode).foldl (childProdStep env) st

/-- `syncing.Service.syncVariantProducts`: for each product model whose
parent is `commonCode`, sync its variant products. -/
def syncVariantProducts (src : Source) (env : DestEnv) (commonCode : String)
    (st : CopyState) : CopyState :=
  (FindModelsByParent src commonCode).foldl (variantStep src env) st

/-- Builds the successful `syncing.SyncResult` from the final copy state
(`result.TotalSynced = ModelsSynced + ProductsSynced`, `Success = true`). -/
def mkHResult (commonIdentifier : String) (st : CopyState) : HSyncResult :=
  { identifier := commonIdentifier
    success := true
    error := ""
    modelsSynced := st.modelsSynced
    productsSynced := st.productsSynced
    totalSynced := st.modelsSynced + st.productsSynced }

/-- `syncing.Service.Sync` — the hierarchy copier (`copyHierarchy`).
Probe the root key as a product first; if found, copy it and its child
products (flat 2-level tree).  Otherwise probe it as a product model; if
found, copy it, its child models, and the variant products of those child
models (3-level tree).  A failure while saving the root node itself, or a
double probe miss, aborts the copy with a Go error (`Except.error`); the
destination reached so far and the recorded write trace are returned in
every case. -/
def hierSync (src : Source) (env : DestEnv) (d : Dest) (commonIdentifier : String) :
    Except String HSyncResult × Dest × List WriteEvent :=
  match FindByIdentifier src commonIdentifier with
  | some commonProduct =>
      if env.failP commonIdentifier commonProduct then
        (Except.error "error saving common product", d,
          [WriteEvent.saveProduct commonIdentifier commonProduct false])
      else
        let e0 := WriteEvent.saveProduct commonIdentifier commonProduct true
        let st0 : CopyState :=
          { dest := destApply d e0, trace := [e0], modelsSynced := 0, productsSynced := 1 }
        let st := syncChildProducts src env commonIdentifier st0
        (Except.ok (mkHResult commonIdentifier st), st.dest, st.trace)
  | none =>
      match FindModelByCode src commonIdentifier with
      | none =>
          (Except.error ("common " ++ commonIdentifier ++ " not found as product or model"),
            d, [])
      | some commonModel =>
          if env.failM commonIdentifier commonModel then
            (Except.error "error saving common model", d,
              [WriteEvent.saveModel commonIdentifier commonModel false])
          else
            let e0 := WriteEvent.saveModel commonIdentifier commonModel true
            let st0 : CopyState :=
              { dest := destApply d e0, trace := [e0], modelsSynced := 1, productsSynced := 0 }
            let st1 := syncChildModels src env commonIdentifier st0
            let st2 := syncVariantProducts src env commonIdentifier st1
            (Except.ok (mkHResult commonIdentifier st2), st2.dest, st2.trace)

/-- `syncing_since.Service.findModelRoot`, with an explicit step budget.
The Go function recurses with no bound; `fuel` counts the remaining recursive
calls, and `none` means the walk is still running after that many steps
(so the Go original has not returned).  A step: if the `parent` attribute is
missing, non-string, empty, or the literal `"null"`, the current model is the
root; if the parent lookup fails, the current model is treated as the root;
otherwise recurse on the fetched parent model. -/
def findModelRootFuel (src : Source) : Nat → Product → Option String
  | 0, _ => none
  | fuel + 1, model =>
      let code := getStrD model "code"
      match getStr model "parent" with
      | none => some code
      | some parent =>
          if parent = "" ∨ parent = "null" then some code
          else
            match FindModelByCode src parent with
            | none => some code
            | some parentModel => findModelRootFuel src fuel parentModel

/-- `syncing_since.Service.findProductRoot`, with an explicit step budget
(see `findModelRootFuel`).  A step: no usable `parent` attribute means the
product is its own root; otherwise probe the parent as a model first and
continue with the model walk, then as a product and recurse; if both probes
fail, the current product is treated as the root. -/
def findProductRootFuel (src : Source) : Nat → Product → Option String
  | 0, _ => none
  | fuel + 1, prod =>
      let identifier := getStrD prod "identifier"
      match getStr prod "parent" with
      | none => some identifier
      | some parent =>
          if parent = "" ∨ parent = "null" then some identifier
          else
            match FindModelByCode src parent with
            | some parentModel => findModelRootFuel src fuel parentModel
            | none =>
                match FindByIdentifier src parent with
                | none => some identifier
                | some parentProduct => findProductRootFuel src fuel parentProduct

/-- Total wrapper for `findModelRoot` used by the orchestrator embedding.
When the walk finishes within the budget this equals the Go recursion; when
the budget is exhausted the Go original is still recursing (it diverges on a
parent cycle), and the wrapper falls back to the code of the starting node. -/
def findModelRoot (src : Source) (fuel : Nat) (model : Product) : String :=
  (findModelRootFuel src fuel model).getD (getStrD model "code")

/-- Total wrapper for `findProductRoot`; see `findModelRoot`. -/
def findProductRoot (src : Source) (fuel : Nat) (prod : Product) : String :=
  (findProductRootFuel src fuel prod).getD (getStrD prod "identifier")

/-- Whether a node counts as a root/common node: `parent` attribute missing,
non-string, empty, or the literal `"null"` (the shared condition of
`filterCommonModels` / `filterCommonProducts` and the resolvers). -/
def hasNoParent (p : Product) : Bool :=
  match getStr p "parent" with
  | none => true
  | some s => s == "" || s == "null"

/-- `syncing_since.Service.filterCommonModels`: keep only the models without
a usable parent (root/common models). -/
def filterCommonModels (models : List Product) : List Product :=
  models.filter hasNoParent

/-- `syncing_since.Service.filterCommonProducts`: keep only the products
without a usable parent (root/common products). -/
def filterCommonProducts (products : List Product) : List Product :=
  products.filter hasNoParent

/-- `syncing_since.SyncResult`, the aggregate result of one orchestrator
run. -/
structure OrchResult where
  updatedSince : String
  productsSynced : Nat
  modelsSynced : Nat
  totalSynced : Nat
  errors : List String
  success : Bool
deriving DecidableEq

/-- State of one orchestrator run: the destination, the accumulated write
trace, the per-run dedup set `syncedHierarchies`, the aggregate counters and
error list, and — as instrumentation for the stated properties — the list of
hierarchy-copy invocations `(rootKey, succeeded)` in call order. -/
structure RunState where
  dest : Dest
  trace : List WriteEvent
  synced : List String
  modelsSynced : Nat
  productsSynced : Nat
  errors : List String
  copyCalls : List (String × Bool)
  modelsProcessed : Nat
  productsProcessed : Nat

/-- The initial orchestrator state over a given destination. -/
def initRunState (d : Dest) : RunState :=
  { dest := d, trace := [], synced := [], modelsSynced := 0, productsSynced := 0,
    errors := [], copyCalls := [], modelsProcessed := 0, productsProcessed := 0 }

/-- Body of the model-stream callback of `syncing_since.Service.Sync` for one
model: extract the code (recording the malformed-node error when it is not a
string), resolve the root, skip when the root is already in the dedup set,
otherwise invoke the hierarchy copier; a copier error is recorded in the
error list, a success marks the root as synced and merges the counters. -/
def processModel (src : Source) (env : DestEnv) (fuel : Nat)
    (st : RunState) (model : Product) : RunState :=
  match getStr model "code" with
  | none => { st with errors := st.errors ++ ["could not extract model code"] }
  | some _ =>
      let root := findModelRoot src fuel model
      if st.synced.contains root then st
      else
        match hierSync src env st.dest root with
        | (Except.error e, d, tr) =>
            { st with
              dest := d
              trace := st.trace ++ tr
              errors := st.errors ++ ["error syncing root " ++ root ++ ": " ++ e]
              copyCalls := st.copyCalls ++ [(root, false)] }
        | (Except.ok r, d, tr) =>
            { st with
              dest := d
              trace := st.trace ++ tr
              synced := root :: st.synced
              modelsSynced := st.modelsSynced + r.modelsSynced
              productsSynced := st.productsSynced + r.productsSynced
              copyCalls := st.copyCalls ++ [(root, true)]
              modelsProcessed := st.modelsProcessed + 1 }

/-- Body of the product-stream callback of `syncing_since.Service.Sync` for
one product; mirrors `processModel` with the `identifier` attribute and the
product-root resolver. -/
def processProduct (src : Source) (env : DestEnv) (fuel : Nat)
    (st : RunState) (prod : Product) : RunState :=
  match getStr prod "identifier" with
  | none => { st with errors := st.errors ++ ["could not extract product identifier"] }
  | some _ =>
      let root := findProductRoot src fuel prod
      if st.synced.contains root then st
      else
        match hierSync src env st.dest root with
        | (Except.error e, d, tr) =>
            { st with
              dest := d
              trace := st.trace ++ tr
              errors := st.errors ++ ["error syncing root " ++ root ++ ": " ++ e]
              copyCalls := st.copyCalls ++ [(root, false)] }
        | (Except.ok r, d, tr) =>
            { st with
              dest := d
              trace := st.trace ++ tr
              synced := root :: st.synced
              modelsSynced := st.modelsSynced + r.modelsSynced
              productsSynced := st.productsSynced + r.productsSynced
              copyCalls := st.copyCalls ++ [(root, true)]
              productsProcessed := st.productsProcessed + 1 }

/-- Modelled from the spec: the change-stream pagination mechanism
(`StreamModelsUpdatedSince` / `StreamProductsUpdatedSince`, whose Go
implementation is not among the provided sources — only its caller and the
specification describe it).  The stream delivers its pages in order, invoking
the visit callback synchronously on each batch, and then either ends cleanly
or fails to fetch the next page, reported as `some` error message.  The
callbacks of the orchestrator always return nil, so the callback-error
propagation never fires and the callback is modelled as total. -/
def streamSince (batches : List (List Product)) (pageErr : Option String)
    (visit : RunState → List Product → RunState) (st : RunState) :
    RunState × Option String :=
  (batches.foldl visit st, pageErr)

/-- One change feed for the orchestrator: the delivered batches and the
optional page-fetch failure ending each of the two streams. -/
structure Feeds where
  modelBatches : List (List Product)
  modelPageErr : Option String
  productBatches : List (List Product)
  productPageErr : Option String

/-- Builds the final `syncing_since.SyncResult` from the run state
(`Success` starts true and is cleared when the error list is nonempty). -/
def mkOrchResult (updatedSince : String) (st : RunState) : OrchResult :=
  { updatedSince := updatedSince
    productsSynced := st.productsSynced
    modelsSynced := st.modelsSynced
    totalSynced := st.modelsSynced + st.productsSynced
    errors := st.errors
    success := st.errors.isEmpty }

/-- `syncing_since.Service.Sync` — the orchestrator (`syncSince`).
Stream the changed product models, then the changed products, processing each
node of each batch in yield order; a page-fetch failure of either stream is
fatal and propagates as a Go error, otherwise the aggregate result is
returned.  The final run state is returned alongside for the stated
properties. -/
def syncSince (src : Source) (env : DestEnv) (fuel : Nat) (feeds : Feeds)
    (updatedSince : String) (d : Dest) : Except String OrchResult × RunState :=
  let st0 := initRunState d
  let (st1, err1) := streamSince feeds.modelBatches feeds.modelPageErr
    (fun st batch => batch.foldl (processModel src env fuel) st) st0
  match err1 with
  | some e => (Except.error ("error streaming updated models: " ++ e), st1)
  | none =>
      let (st2, err2) := streamSince feeds.productBatches feeds.productPageErr
        (fun st batch => batch.foldl (processProduct src env fuel) st) st1
      match err2 with
      | some e => (Except.error ("error streaming updated products: " ++ e), st2)
      | none => (Except.ok (mkOrchResult updatedSince st2), st2)

/-! ### Pure write-trace characterization of the hierarchy copier

The copier threads a `CopyState` through its loops.  The write sequence it
produces is a pure function of the source, the failure policy and the root
key; the lemmas below factor every loop into "apply this pure event list to
the state", which powers the ordering, isolation and idempotency theorems. -/

/-- The declared parent attribute of a payload. -/
def parentOf (q : Product) : String := getStrD q "parent"

/-- The write attempt generated for one child product, if any. -/
def prodEvent (env : DestEnv) (q : Product) : Option WriteEvent :=
  let identifier := getStrD q "identifier"
  if identifier = "" then none
  else some (WriteEvent.saveProduct identifier q (!env.failP identifier q))

/-- The write attempt generated for one child model, if any. -/
def modelEvent (env : DestEnv) (m : Product) : Option WriteEvent :=
  let code := getStrD m "code"
  if code = "" then none
  else some (WriteEvent.saveModel code m (!env.failM code m))

/-- The write sequence of `syncChildProducts`. -/
def childProdTrace (src : Source) (env : DestEnv) (parentCode : String) :
    List WriteEvent :=
  (FindProductsByParent src parentCode).filterMap (prodEvent env)

/-- The write sequence of `syncChildModels`. -/
def childModelTrace (src : Source) (env : DestEnv) (parentCode : String) :
    List WriteEvent :=
  (FindModelsByParent src parentCode).filterMap (modelEvent env)

/-- The write sequence of `syncVariantProducts`. -/
def variantTrace (src : Source) (env : DestEnv) (commonCode : String) :
    List WriteEvent :=
  (FindModelsByParent src commonCode).flatMap (fun m =>
    if getStrD m "code" = "" then []
    else childProdTrace src env (getStrD m "code"))

/-- Accepted model writes in a write sequence (what `ModelsSynced` counts). -/
def countM (es : List WriteEvent) : Nat :=
  (es.filter (fun e => isModelWrite e && eventOk e)).length

/-- Accepted product writes in a write sequence (what `ProductsSynced`
counts). -/
def countP (es : List WriteEvent) : Nat :=
  (es.filter (fun e => !isModelWrite e && eventOk e)).length

/-- Effect of recording one write attempt on a `CopyState`. -/
def stApplyEvent (st : CopyState) (e : WriteEvent) : CopyState :=
  { dest := destApply st.dest e
    trace := st.trace ++ [e]
    modelsSynced := st.modelsSynced + (if isModelWrite e && eventOk e then 1 else 0)
    productsSynced := st.productsSynced + (if !isModelWrite e && eventOk e then 1 else 0) }

/-- Effect of recording a sequence of write attempts on a `CopyState`. -/
def stApplyEvents (st : CopyState) (es : List WriteEvent) : CopyState :=
  es.foldl stApplyEvent st

theorem childProdStep_eq (env : DestEnv) (st : CopyState) (q : Product) :
    childProdStep env st q =
      match prodEvent env q with
      | none => st
      | some e => stApplyEvent st e := by
  unfold childProdStep prodEvent
  by_cases h : getStrD q "identifier" = ""
  · simp [h]
  · simp only [h, if_neg h, if_false]
    unfold stApplyEvent
    cases hf : env.failP (getStrD q "identifier") q <;>
      simp [isModelWrite, eventOk, hf]

theorem childModelStep_eq (env : DestEnv) (st : CopyState) (m : Product) :
    childModelStep env st m =
      match modelEvent env m with
      | none => st
      | some e => stApplyEvent st e := by
  unfold childModelStep modelEvent
  by_cases h : getStrD m "code" = ""
  · simp [h]
  · simp only [h, if_neg h, if_false]
    unfold stApplyEvent
    cases hf : env.failM (getStrD m "code") m <;>
      simp [isModelWrite, eventOk, hf]

theorem foldl_filterMap_event {α : Type} (f : α → Option WriteEvent)
    (l : List α) (st : CopyState) :
    (l.filterMap f).foldl stApplyEvent st =
      l.foldl (fun st a =>
        match f a with
        | none => st
        | some e => stApplyEvent st e) st := by
  induction l generalizing st with
  | nil => rfl
  | cons a l ih =>
      cases h : f a <;> simp [List.filterMap_cons, h, List.foldl_cons, ih]

theorem syncChildProducts_eq (src : Source) (env : DestEnv) (parentCode : String)
    (st : CopyState) :
    syncChildProducts src env parentCode st =
      stApplyEvents st (childProdTrace src env parentCode) := by
  have h : childProdStep env = fun st' q =>
      match prodEvent env q with
      | none => st'
      | some e => stApplyEvent st' e := by
    funext st' q
    exact childProdStep_eq env st' q
  unfold syncChildProducts childProdTrace stApplyEvents
  rw [h, foldl_filterMap_event]

theorem syncChildModels_eq (src : Source) (env : DestEnv) (parentCode : String)
    (st : CopyState) :
    syncChildModels src env parentCode st =
      stApplyEvents st (childModelTrace src env parentCode) := by
  have h : childModelStep env = fun st' m =>
      match modelEvent env m with
      | none => st'
      | some e => stApplyEvent st' e := by
    funext st' m
    exact childModelStep_eq env st' m
  unfold syncChildModels childModelTrace stApplyEvents
  rw [h, foldl_filterMap_event]

theorem stApplyEvents_append (st : CopyState) (xs ys : List WriteEvent) :
    stApplyEvents st (xs ++ ys) = stApplyEvents (stApplyEvents st xs) ys := by
  unfold stApplyEvents
  exact List.foldl_append ..

theorem syncVariantProducts_eq (src : Source) (env : DestEnv) (commonCode : String)
    (st : CopyState) :
    syncVariantProducts src env commonCode st =
      stApplyEvents st (variantTrace src env commonCode) := by
  unfold syncVariantProducts variantTrace
  induction FindModelsByParent src commonCode generalizing st with
  | nil => rfl
  | cons m ms ih =>
      rw [List.foldl_cons, List.flatMap_cons, stApplyEvents_append, ih]
      congr 1
      unfold variantStep
      by_cases h : getStrD m "code" = ""
      · simp [h, stApplyEvents]
      · simp only [h, if_neg h, if_false]
        have := syncChildProducts_eq src env (getStrD m "code") st
        unfold syncChildProducts at this
        exact this

theorem stApplyEvents_trace (st : CopyState) (es : List WriteEvent) :
    (stApplyEvents st es).trace = st.trace ++ es := by
  induction es generalizing st with
  | nil => simp [stApplyEvents]
  | cons e es ih =>
      rw [stApplyEvents, List.foldl_cons, ← stApplyEvents, ih]
      simp [stApplyEvent]

theorem stApplyEvents_dest (st : CopyState) (es : List WriteEvent) :
    (stApplyEvents st es).dest = destApplyAll st.dest es := by
  induction es generalizing st with
  | nil => rfl
  | cons e es ih =>
      rw [stApplyEvents, List.foldl_cons, ← stApplyEvents, ih]
      rfl

theorem stApplyEvents_modelsSynced (st : CopyState) (es : List WriteEvent) :
    (stApplyEvents st es).modelsSynced = st.modelsSynced + countM es := by
  induction es generalizing st with
  | nil => simp [stApplyEvents, countM]
  | cons e es ih =>
      rw [stApplyEvents, List.foldl_cons, ← stApplyEvents, ih]
      unfold countM stApplyEvent
      by_cases h : (isModelWrite e && eventOk e) = true <;>
        simp [h, List.filter_cons] <;> omega

theorem stApplyEvents_productsSynced (st : CopyState) (es : List WriteEvent) :
    (stApplyEvents st es).productsSynced = st.productsSynced + countP es := by
  induction es generalizing st with
  | nil => simp [stApplyEvents, countP]
  | cons e es ih =>
      rw [stApplyEvents, List.foldl_cons, ← stApplyEvents, ih]
      unfold countP stApplyEvent
      by_cases h : (!isModelWrite e && eventOk e) = true <;>
        simp [h, List.filter_cons] <;> omega

/-- The full write sequence of one hierarchy copy, as a pure function of the
source, the failure policy and the root key. -/
def hierTrace (src : Source) (env : DestEnv) (root : String) : List WriteEvent :=
  match FindByIdentifier src root with
  | some p =>
      if env.failP root p then [WriteEvent.saveProduct root p false]
      else WriteEvent.saveProduct root p true :: childProdTrace src env root
  | none =>
      match FindModelByCode src root with
      | none => []
      | some m =>
          if env.failM root m then [WriteEvent.saveModel root m false]
          else WriteEvent.saveModel root m true ::
            (childModelTrace src env root ++ variantTrace src env root)

/-- The Go return value of the hierarchy copier, as a pure function of the source,
the failure policy and the root key. -/
def hierResultPure (src : Source) (env : DestEnv) (root : String) :
    Except String HSyncResult :=
  let t := hierTrace src env root
  match FindByIdentifier src root with
  | some p =>
      if env.failP root p then Except.error "error saving common product"
      else Except.ok
        { identifier := root, success := true, error := "",
          modelsSynced := countM t, productsSynced := countP t,
          totalSynced := countM t + countP t }
  | none =>
      match FindModelByCode src root with
      | none =>
          Except.error ("common " ++ root ++ " not found as product or model")
      | some m =>
          if env.failM root m then Except.error "error saving common model"
          else Except.ok
            { identifier := root, success := true, error := "",
              modelsSynced := countM t, productsSynced := countP t,
              totalSynced := countM t + countP t }

theorem countM_cons (e : WriteEvent) (es : List WriteEvent) :
    countM (e :: es) = (if isModelWrite e && eventOk e then 1 else 0) + countM es := by
  unfold countM
  by_cases h : (isModelWrite e && eventOk e) = true <;>
    simp [h, List.filter_cons] <;> omega

theorem countP_cons (e : WriteEvent) (es : List WriteEvent) :
    countP (e :: es) = (if !isModelWrite e && eventOk e then 1 else 0) + countP es := by
  unfold countP
  by_cases h : (!isModelWrite e && eventOk e) = true <;>
    simp [h, List.filter_cons] <;> omega

/-- Master characterization of one hierarchy copy: the Go return value and
the write trace are pure functions of source, failure policy and root key,
and the destination reached is exactly the initial destination with that
write sequence applied. -/
theorem hierSync_eq (src : Source) (env : DestEnv) (d : Dest) (root : String) :
    hierSync src env d root =
      (hierResultPure src env root,
        destApplyAll d (hierTrace src env root),
        hierTrace src env root) := by
  unfold hierSync hierResultPure hierTrace
  cases hp : FindByIdentifier src root with
  | some p =>
      by_cases hf : env.failP root p = true
      · simp only [hf, if_true, if_pos hf]
        unfold destApplyAll destApply
        simp [List.foldl_cons]
      · simp only [hf, if_neg hf, Bool.false_eq_true, if_false]
        rw [syncChildProducts_eq]
        have hm := stApplyEvents_modelsSynced
          { dest := destApply d (WriteEvent.saveProduct root p true),
            trace := [WriteEvent.saveProduct root p true], modelsSynced := 0, productsSynced := 1 }
          (childProdTrace src env root)
        have hpr := stApplyEvents_productsSynced
          { dest := destApply d (WriteEvent.saveProduct root p true),
            trace := [WriteEvent.saveProduct root p true], modelsSynced := 0, productsSynced := 1 }
          (childProdTrace src env root)
        have ht := stApplyEvents_trace
          { dest := destApply d (WriteEvent.saveProduct root p true),
            trace := [WriteEvent.saveProduct root p true], modelsSynced := 0, productsSynced := 1 }
          (childProdTrace src env root)
        have hd := stApplyEvents_dest
          { dest := destApply d (WriteEvent.saveProduct root p true),
            trace := [WriteEvent.saveProduct root p true], modelsSynced := 0, productsSynced := 1 }
          (childProdTrace src env root)
        refine Prod.ext ?_ (Prod.ext ?_ ?_)
        · simp only [mkHResult, hm, hpr, countM_cons, countP_cons,
            isModelWrite, eventOk, Bool.not_false]
          simp
        · simp only [hd, destApplyAll, List.foldl_cons]
        · simp only [ht]
          rfl
  | none =>
      cases hm : FindModelByCode src root with
      | none => rfl
      | some m =>
          by_cases hf : env.failM root m = true
          · simp only [hf, if_true, if_pos hf]
            unfold destApplyAll destApply
            simp [List.foldl_cons]
          · simp only [hf, if_neg hf, Bool.false_eq_true, if_false]
            rw [syncChildModels_eq, syncVariantProducts_eq, ← stApplyEvents_append]
            set st0 : CopyState :=
              { dest := destApply d (WriteEvent.saveModel root m true),
                trace := [WriteEvent.saveModel root m true], modelsSynced := 1, productsSynced := 0 }
            set es := childModelTrace src env root ++ variantTrace src env root
            refine Prod.ext ?_ (Prod.ext ?_ ?_)
            · simp only [mkHResult, stApplyEvents_modelsSynced, stApplyEvents_productsSynced,
                countM_cons, countP_cons, isModelWrite, eventOk, Bool.not_true]
              simp
            · simp only [stApplyEvents_dest, destApplyAll, List.foldl_cons]
            · simp only [stApplyEvents_trace]
              rfl

/-! ### Last-writer-wins characterization of the destination -/

/-- The payload of the last accepted product write to key `k` in a write
sequence, if any. -/
def lastProdWrite : List WriteEvent → String → Option Product
  | [], _ => none
  | e :: es, k =>
      match lastProdWrite es k with
      | some q => some q
      | none =>
          match e with
          | WriteEvent.saveProduct kk q true => if kk = k then some q else none
          | _ => none

/-- The payload of the last accepted model write to key `k` in a write
sequence, if any. -/
def lastModelWrite : List WriteEvent → String → Option Product
  | [], _ => none
  | e :: es, k =>
      match lastModelWrite es k with
      | some q => some q
      | none =>
          match e with
          | WriteEvent.saveModel kk q true => if kk = k then some q else none
          | _ => none

theorem destApplyAll_products (es : List WriteEvent) :
    ∀ (d : Dest) (k : String),
      (destApplyAll d es).products k =
        match lastProdWrite es k with
        | some q => some (cleanProduct q)
        | none => d.products k := by
  induction es with
  | nil => intro d k; rfl
  | cons e es ih =>
      intro d k
      have step : destApplyAll d (e :: es) = destApplyAll (destApply d e) es := rfl
      rw [step, ih]
      cases hl : lastProdWrite es k with
      | some q => simp [lastProdWrite, hl]
      | none =>
          simp only [lastProdWrite, hl]
          cases e with
          | saveProduct kk q ok =>
              cases ok with
              | true =>
                  by_cases hk : kk = k
                  · simp [destApply, hk]
                  · have hk2 : ¬ k = kk := fun h => hk h.symm
                    simp [destApply, hk, hk2]
              | false => simp [destApply]
          | saveModel kk q ok =>
              cases ok with
              | true => simp [destApply]
              | false => simp [destApply]

theorem destApplyAll_models (es : List WriteEvent) :
    ∀ (d : Dest) (k : String),
      (destApplyAll d es).models k =
        match lastModelWrite es k with
        | some q => some (cleanProductModel q)
        | none => d.models k := by
  induction es with
  | nil => intro d k; rfl
  | cons e es ih =>
      intro d k
      have step : destApplyAll d (e :: es) = destApplyAll (destApply d e) es := rfl
      rw [step, ih]
      cases hl : lastModelWrite es k with
      | some q => simp [lastModelWrite, hl]
      | none =>
          simp only [lastModelWrite, hl]
          cases e with
          | saveModel kk q ok =>
              cases ok with
              | true =>
                  by_cases hk : kk = k
                  · simp [destApply, hk]
                  · have hk2 : ¬ k = kk := fun h => hk h.symm
                    simp [destApply, hk, hk2]
              | false => simp [destApply]
          | saveProduct kk q ok =>
              cases ok with
              | true => simp [destApply]
              | false => simp [destApply]

theorem Dest_ext {d1 d2 : Dest} (hp : d1.products = d2.products)
    (hm : d1.models = d2.models) : d1 = d2 := by
  cases d1; cases d2; cases hp; cases hm; rfl

/-- Replaying any write sequence over a destination that already received it
changes nothing: writes are upserts whose stored value depends only on the
event, so the last writer of each key wins both times. -/
theorem destApplyAll_idem (d : Dest) (es : List WriteEvent) :
    destApplyAll (destApplyAll d es) es = destApplyAll d es := by
  refine Dest_ext (funext fun k => ?_) (funext fun k => ?_)
  · rw [destApplyAll_products, destApplyAll_products]
    cases hl : lastProdWrite es k <;> simp
  · rw [destApplyAll_models, destApplyAll_models]
    cases hl : lastModelWrite es k <;> simp

/-- A successful product write to key `k` somewhere in a write sequence
guarantees the destination holds a product under `k` afterwards. -/
theorem destApplyAll_products_isSome {es : List WriteEvent} {k : String}
    {q : Product} (hmem : WriteEvent.saveProduct k q true ∈ es) (d : Dest) :
    ((destApplyAll d es).products k).isSome = true := by
  rw [destApplyAll_products]
  suffices h : lastProdWrite es k ≠ none by
    cases hl : lastProdWrite es k with
    | some q' => simp
    | none => exact absurd hl h
  induction es with
  | nil => cases hmem
  | cons e es ih =>
      rcases List.mem_cons.mp hmem with he | he
      · subst he
        cases hl : lastProdWrite es k with
        | some q' => simp [lastProdWrite, hl]
        | none => simp [lastProdWrite, hl]
      · have := ih he
        cases hl : lastProdWrite es k with
        | some q' => simp [lastProdWrite, hl]
        | none => exact absurd hl this

/-! ### The parent-before-child write-order checker -/

/-- Scans a write sequence left to right carrying the keys already written
(or attempted); every product write must name a payload parent among the
keys written strictly earlier. -/
def leafParentsCoveredAux : List String → List WriteEvent → Bool
  | _, [] => true
  | seen, e :: rest =>
      (match e with
       | WriteEvent.saveProduct _ q _ => seen.contains (parentOf q)
       | WriteEvent.saveModel _ _ _ => true)
      && leafParentsCoveredAux (eventKey e :: seen) rest

/-- The parent-before-child ordering of the write sequence of one copy:
the first write targets the root key; after the model-write block no further
model write occurs (so every group write precedes every leaf write); and
every leaf write except the one for the root itself names a declared parent that was
written (or attempted) strictly earlier in the sequence. -/
def writeOrderOK (rootKey : String) : List WriteEvent → Bool
  | [] => true
  | e :: rest =>
      (eventKey e == rootKey)
      && ((List.dropWhile isModelWrite (e :: rest)).all fun x => !isModelWrite x)
      && leafParentsCoveredAux [eventKey e] rest

/-- The keys accumulated by the checker after scanning a block. -/
def seenAfter (es : List WriteEvent) (seen : List String) : List String :=
  es.foldl (fun s e => eventKey e :: s) seen

theorem leafParentsCoveredAux_append (seen : List String) (xs ys : List WriteEvent) :
    leafParentsCoveredAux seen (xs ++ ys) =
      (leafParentsCoveredAux seen xs && leafParentsCoveredAux (seenAfter xs seen) ys) := by
  induction xs generalizing seen with
  | nil => simp [leafParentsCoveredAux, seenAfter]
  | cons e xs ih =>
      simp only [List.cons_append, leafParentsCoveredAux, List.append_eq]
      rw [ih]
      simp only [seenAfter, List.foldl_cons, Bool.and_assoc]

theorem contains_cons_of_contains {seen : List String} {x y : String}
    (h : seen.contains x = true) : (y :: seen).contains x = true := by
  simp only [List.contains_cons, Bool.or_eq_true]
  exact Or.inr h

theorem leafParentsCoveredAux_of_all {seen : List String} {es : List WriteEvent}
    (h : ∀ k q b, WriteEvent.saveProduct k q b ∈ es → seen.contains (parentOf q) = true) :
    leafParentsCoveredAux seen es = true := by
  induction es generalizing seen with
  | nil => rfl
  | cons e es ih =>
      cases e with
      | saveProduct k q b =>
          simp only [leafParentsCoveredAux, eventKey]
          rw [h k q b (List.mem_cons_self _ _), Bool.true_and]
          exact ih fun k2 q2 b2 hm =>
            contains_cons_of_contains (h k2 q2 b2 (List.mem_cons_of_mem _ hm))
      | saveModel k m b =>
          simp only [leafParentsCoveredAux, eventKey, Bool.true_and]
          exact ih fun k2 q2 b2 hm =>
            contains_cons_of_contains (h k2 q2 b2 (List.mem_cons_of_mem _ hm))

theorem seenAfter_contains_of_contains {seen : List String} {x : String}
    (es : List WriteEvent) (h : seen.contains x = true) :
    (seenAfter es seen).contains x = true := by
  induction es generalizing seen with
  | nil => exact h
  | cons e es ih =>
      exact ih (contains_cons_of_contains h)

theorem seenAfter_contains_of_mem {es : List WriteEvent} {e : WriteEvent}
    (seen : List String) (h : e ∈ es) :
    (seenAfter es seen).contains (eventKey e) = true := by
  induction es generalizing seen with
  | nil => cases h
  | cons x xs ih =>
      rcases List.mem_cons.mp h with hx | hx
      · subst hx
        exact seenAfter_contains_of_contains xs (by simp [List.contains_cons])
      · exact ih (eventKey x :: seen) hx

theorem mem_FindProductsByParent_parent {src : Source} {c : String} {q : Product}
    (h : q ∈ FindProductsByParent src c) : parentOf q = c := by
  unfold FindProductsByParent at h
  have := (List.mem_filter.mp h).2
  exact beq_iff_eq.mp this

theorem prodEvent_some {env : DestEnv} {q : Product} {e : WriteEvent}
    (h : prodEvent env q = some e) :
    getStrD q "identifier" ≠ "" ∧
      e = WriteEvent.saveProduct (getStrD q "identifier") q
        (!env.failP (getStrD q "identifier") q) := by
  unfold prodEvent at h
  by_cases hid : getStrD q "identifier" = ""
  · simp [hid] at h
  · simp only [hid, if_neg hid, if_false, Option.some_inj] at h
    exact ⟨hid, h.symm⟩

theorem modelEvent_some {env : DestEnv} {m : Product} {e : WriteEvent}
    (h : modelEvent env m = some e) :
    getStrD m "code" ≠ "" ∧
      e = WriteEvent.saveModel (getStrD m "code") m
        (!env.failM (getStrD m "code") m) := by
  unfold modelEvent at h
  by_cases hc : getStrD m "code" = ""
  · simp [hc] at h
  · simp only [hc, if_neg hc, if_false, Option.some_inj] at h
    exact ⟨hc, h.symm⟩

theorem childProdTrace_mem {src : Source} {env : DestEnv} {c : String}
    {e : WriteEvent} (h : e ∈ childProdTrace src env c) :
    ∃ q ∈ FindProductsByParent src c,
      getStrD q "identifier" ≠ "" ∧
        e = WriteEvent.saveProduct (getStrD q "identifier") q
          (!env.failP (getStrD q "identifier") q) := by
  unfold childProdTrace at h
  rcases List.mem_filterMap.mp h with ⟨q, hq, he⟩
  rcases prodEvent_some he with ⟨hid, hform⟩
  exact ⟨q, hq, hid, hform⟩

theorem childModelTrace_mem {src : Source} {env : DestEnv} {c : String}
    {e : WriteEvent} (h : e ∈ childModelTrace src env c) :
    ∃ m ∈ FindModelsByParent src c,
      getStrD m "code" ≠ "" ∧
        e = WriteEvent.saveModel (getStrD m "code") m
          (!env.failM (getStrD m "code") m) := by
  unfold childModelTrace at h
  rcases List.mem_filterMap.mp h with ⟨m, hm, he⟩
  rcases modelEvent_some he with ⟨hc, hform⟩
  exact ⟨m, hm, hc, hform⟩

theorem childProdTrace_product {src : Source} {env : DestEnv} {c : String}
    {e : WriteEvent} (h : e ∈ childProdTrace src env c) :
    isModelWrite e = false := by
  rcases childProdTrace_mem h with ⟨q, _, _, rfl⟩
  rfl

theorem childModelTrace_model {src : Source} {env : DestEnv} {c : String}
    {e : WriteEvent} (h : e ∈ childModelTrace src env c) :
    isModelWrite e = true := by
  rcases childModelTrace_mem h with ⟨m, _, _, rfl⟩
  rfl

theorem variantTrace_mem {src : Source} {env : DestEnv} {root : String}
    {e : WriteEvent} (h : e ∈ variantTrace src env root) :
    ∃ g ∈ FindModelsByParent src root,
      getStrD g "code" ≠ "" ∧ e ∈ childProdTrace src env (getStrD g "code") := by
  unfold variantTrace at h
  rcases List.mem_flatMap.mp h with ⟨g, hg, he⟩
  by_cases hc : getStrD g "code" = ""
  · rw [if_pos hc] at he
    cases he
  · rw [if_neg hc] at he
    exact ⟨g, hg, hc, he⟩

theorem dropWhile_models_then_products {ms ps : List WriteEvent}
    (hm : ∀ e ∈ ms, isModelWrite e = true)
    (hp : ∀ e ∈ ps, isModelWrite e = false) :
    ((ms ++ ps).dropWhile isModelWrite).all (fun x => !isModelWrite x) = true := by
  induction ms with
  | nil =>
      simp only [List.nil_append]
      cases ps with
      | nil => rfl
      | cons x xs =>
          rw [List.dropWhile_cons_of_neg
            (by simp [hp x (List.mem_cons_self _ _)])]
          exact List.all_eq_true.mpr fun e he => by
            rw [hp e he]; rfl
  | cons m ms ih =>
      rw [List.cons_append,
        List.dropWhile_cons_of_pos (by rw [hm m (List.mem_cons_self _ _)])]
      exact ih fun e he => hm e (List.mem_cons_of_mem _ he)

theorem variantTrace_product {src : Source} {env : DestEnv} {root : String}
    {e : WriteEvent} (h : e ∈ variantTrace src env root) :
    isModelWrite e = false := by
  rcases variantTrace_mem h with ⟨g, _, _, he⟩
  exact childProdTrace_product he

theorem childModelTrace_mem_of {src : Source} {env : DestEnv} {c : String}
    {g : Product} (hg : g ∈ FindModelsByParent src c)
    (hcode : getStrD g "code" ≠ "") :
    WriteEvent.saveModel (getStrD g "code") g
      (!env.failM (getStrD g "code") g) ∈ childModelTrace src env c := by
  unfold childModelTrace
  refine List.mem_filterMap.mpr ⟨g, hg, ?_⟩
  unfold modelEvent
  simp [hcode]

/-- Claim C2: in the write sequence produced by one `copyHierarchy` call
(`syncing.Service.Sync`), the root is written first; after the block of
group (model) writes no further group write occurs, so every group write
precedes every leaf write; and every leaf write other than the one for the root itself
names a declared parent that was written, or whose write was attempted,
strictly earlier in the sequence — for every source, failure policy,
destination and root key, hence for every hierarchy shape the copier
handles. -/
theorem copyHierarchy_write_order (src : Source) (env : DestEnv) (d : Dest)
    (root : String) :
    writeOrderOK root (hierSync src env d root).2.2 = true := by
  rw [hierSync_eq]
  show writeOrderOK root (hierTrace src env root) = true
  unfold hierTrace
  cases hp : FindByIdentifier src root with
  | some p =>
      by_cases hf : env.failP root p = true
      · simp [hf, writeOrderOK, leafParentsCoveredAux, eventKey, isModelWrite,
          List.dropWhile]
      · simp only [hf, Bool.false_eq_true, if_false]
        unfold writeOrderOK
        refine (Bool.and_eq_true _ _).mpr ⟨(Bool.and_eq_true _ _).mpr ⟨?_, ?_⟩, ?_⟩
        · simp [eventKey]
        · have hall : ∀ e ∈ WriteEvent.saveProduct root p true ::
              childProdTrace src env root, isModelWrite e = false := by
            intro e he
            rcases List.mem_cons.mp he with rfl | he
            · rfl
            · exact childProdTrace_product he
          rw [List.dropWhile_cons_of_neg (by simp [isModelWrite])]
          exact List.all_eq_true.mpr fun e he => by
            rw [hall e he]; rfl
        · refine leafParentsCoveredAux_of_all ?_
          intro k q b hm
          rcases childProdTrace_mem hm with ⟨q2, hq2, _, heq⟩
          cases heq
          have := mem_FindProductsByParent_parent hq2
          rw [this]
          simp [eventKey, List.contains_cons]
  | none =>
      cases hm : FindModelByCode src root with
      | none => rfl
      | some m =>
          by_cases hf : env.failM root m = true
          · simp [hf, writeOrderOK, leafParentsCoveredAux, eventKey, isModelWrite,
              List.dropWhile]
          · simp only [hf, Bool.false_eq_true, if_false]
            unfold writeOrderOK
            refine (Bool.and_eq_true _ _).mpr ⟨(Bool.and_eq_true _ _).mpr ⟨?_, ?_⟩, ?_⟩
            · simp [eventKey]
            · have hstep : WriteEvent.saveModel root m true ::
                  (childModelTrace src env root ++ variantTrace src env root) =
                  (WriteEvent.saveModel root m true :: childModelTrace src env root) ++
                    variantTrace src env root := by
                simp
              rw [hstep]
              refine dropWhile_models_then_products ?_ ?_
              · intro e he
                rcases List.mem_cons.mp he with rfl | he
                · rfl
                · exact childModelTrace_model he
              · intro e he
                exact variantTrace_product he
            · rw [leafParentsCoveredAux_append]
              refine (Bool.and_eq_true _ _).mpr ⟨?_, ?_⟩
              · refine leafParentsCoveredAux_of_all ?_
                intro k q b hmem
                have := childModelTrace_model hmem
                simp [isModelWrite] at this
              · refine leafParentsCoveredAux_of_all ?_
                intro k q b hmem
                rcases variantTrace_mem hmem with ⟨g, hg, hcode, hin⟩
                rcases childProdTrace_mem hin with ⟨q2, hq2, _, heq⟩
                cases heq
                have hpar := mem_FindProductsByParent_parent hq2
                rw [hpar]
                have hev := @childModelTrace_mem_of src env _ _ hg hcode
                have := seenAfter_contains_of_mem
                  [eventKey (WriteEvent.saveModel root m true)] hev
                simpa [eventKey] using this

/-- Claim C8: the hierarchy copier is idempotent.  Running
`syncing.Service.Sync` a second time on the destination produced by a first
run, with the source and the failure policy unchanged, returns the same Go
result, performs the identical write sequence, and leaves the destination
exactly as the first run left it — writes are upserts of cleaned payloads
that depend only on the source, so no child is duplicated. -/
theorem copyHierarchy_idempotent (src : Source) (env : DestEnv) (d : Dest)
    (root : String) :
    hierSync src env (hierSync src env d root).2.1 root =
      ((hierSync src env d root).1,
        (hierSync src env d root).2.1,
        (hierSync src env d root).2.2) := by
  simp only [hierSync_eq]
  exact congrArg (fun x => (hierResultPure src env root, x, hierTrace src env root))
    (destApplyAll_idem d (hierTrace src env root))

/-- Claim C9 (amended): a payload transmitted to the destination is the
source payload with the deny-listed volatile fields (`_links`, `created`,
`updated`) removed and, in addition, every attribute whose value is JSON
null removed; every other key/value pair is transmitted unchanged, and a
successful write stores exactly that cleaned payload under the written
key.  The claim as frozen omitted the null-valued keys. -/
theorem cleaned_payload_exact (p : Product) (k : String) (v : AttrVal) :
    ((k, v) ∈ cleanProduct p ↔
      ((k, v) ∈ p ∧ ¬ k ∈ excludedFields ∧ v ≠ AttrVal.null)) ∧
    ((k, v) ∈ cleanProductModel p ↔
      ((k, v) ∈ p ∧ ¬ k ∈ excludedFields ∧ v ≠ AttrVal.null)) ∧
    (∀ d : Dest,
      (destApply d (WriteEvent.saveProduct k p true)).products k =
        some (cleanProduct p)) ∧
    (∀ d : Dest,
      (destApply d (WriteEvent.saveModel k p true)).models k =
        some (cleanProductModel p)) := by
  refine ⟨?_, ?_, ?_, ?_⟩
  · unfold cleanProduct
    rw [List.mem_filter]
    simp [and_assoc]
  · unfold cleanProductModel
    rw [List.mem_filter]
    simp [and_assoc]
  · intro d
    simp [destApply]
  · intro d
    simp [destApply]

/-- A model whose parent chain loops: `A → B → A`. -/
def cycA : Product := [("code", AttrVal.str "A"), ("parent", AttrVal.str "B")]

/-- The other half of the model cycle. -/
def cycB : Product := [("code", AttrVal.str "B"), ("parent", AttrVal.str "A")]

/-- A product whose parent chain loops: `p1 → p2 → p1`. -/
def cycP1 : Product := [("identifier", AttrVal.str "p1"), ("parent", AttrVal.str "p2")]

/-- The other half of the product cycle. -/
def cycP2 : Product := [("identifier", AttrVal.str "p2"), ("parent", AttrVal.str "p1")]

/-- A source whose model store and product store each contain a 2-cycle of
parent references. -/
def srcCyc : Source := { products := [cycP1, cycP2], models := [cycA, cycB] }

theorem cycle_walk_never_stops : ∀ n : Nat,
    findModelRootFuel srcCyc n cycA = none ∧
    findModelRootFuel srcCyc n cycB = none ∧
    findProductRootFuel srcCyc n cycP1 = none ∧
    findProductRootFuel srcCyc n cycP2 = none := by
  intro n
  induction n with
  | zero => exact ⟨rfl, rfl, rfl, rfl⟩
  | succ n ih =>
      refine ⟨?_, ?_, ?_, ?_⟩
      · have step : findModelRootFuel srcCyc (n + 1) cycA =
            findModelRootFuel srcCyc n cycB := rfl
        rw [step]; exact ih.2.1
      · have step : findModelRootFuel srcCyc (n + 1) cycB =
            findModelRootFuel srcCyc n cycA := rfl
        rw [step]; exact ih.1
      · have step : findProductRootFuel srcCyc (n + 1) cycP1 =
            findProductRootFuel srcCyc n cycP2 := rfl
        rw [step]; exact ih.2.2.2
      · have step : findProductRootFuel srcCyc (n + 1) cycP2 =
            findProductRootFuel srcCyc n cycP1 := rfl
        rw [step]; exact ih.2.2.1

/-- Claim C5 counterexample: on the cyclic source the resolver has not
returned after 101 steps — so no bound of about 50 hops aborts the walk and
returns the key of the current node, contrary to the claim. -/
theorem findRoot_no_hop_bound :
    findModelRootFuel srcCyc 101 cycA = none ∧
    findProductRootFuel srcCyc 101 cycP1 = none :=
  ⟨(cycle_walk_never_stops 101).1, (cycle_walk_never_stops 101).2.2.1⟩

/-- Claim C5 (amended): the resolvers `findModelRoot` / `findProductRoot`
enforce no chain-length bound at all: on a cyclic parent chain the recursion
never returns within any finite number of steps, instead of aborting at
about 50 hops with the key of the current node. -/
theorem findRoot_diverges_on_cycle (n : Nat) :
    findModelRootFuel srcCyc n cycA = none ∧
    findProductRootFuel srcCyc n cycP1 = none :=
  ⟨(cycle_walk_never_stops n).1, (cycle_walk_never_stops n).2.2.1⟩

/-- Claim C10: a node whose `parent` attribute is missing (or not a string),
is the empty string, or is the literal string `"null"` is treated as having
no parent: both resolvers return the key of the node itself in one step without
consulting the source (the result is the same for every source), and the
batch filters `filterCommonModels` / `filterCommonProducts` classify the
node as a root/common node. -/
theorem no_parent_is_root (src : Source) (n : Nat) (node : Product)
    (h : getStr node "parent" = none ∨ getStr node "parent" = some "" ∨
      getStr node "parent" = some "null") :
    findModelRootFuel src (n + 1) node = some (getStrD node "code") ∧
    findProductRootFuel src (n + 1) node = some (getStrD node "identifier") ∧
    hasNoParent node = true ∧
    (∀ l : List Product, node ∈ l → node ∈ filterCommonModels l) ∧
    (∀ l : List Product, node ∈ l → node ∈ filterCommonProducts l) := by
  have hnp : hasNoParent node = true := by
    unfold hasNoParent
    rcases h with h | h | h <;> rw [h] <;> simp
  refine ⟨?_, ?_, hnp, ?_, ?_⟩
  · unfold findModelRootFuel
    rcases h with h | h | h <;> rw [h] <;> simp
  · unfold findProductRootFuel
    rcases h with h | h | h <;> rw [h] <;> simp
  · intro l hl
    exact List.mem_filter.mpr ⟨hl, hnp⟩
  · intro l hl
    exact List.mem_filter.mpr ⟨hl, hnp⟩

/-- A concrete node with parent `"null"`. -/
def nodeNullParent : Product :=
  [("parent", AttrVal.str "null"), ("code", AttrVal.str "c"),
    ("identifier", AttrVal.str "i")]

/-- Witness for claim C10 at a concrete node whose parent is the literal
string `"null"`. -/
theorem no_parent_is_root_witness :
    findModelRootFuel srcCyc 1 nodeNullParent = some "c" ∧
    findProductRootFuel srcCyc 1 nodeNullParent = some "i" ∧
    hasNoParent nodeNullParent = true ∧
    nodeNullParent ∈ filterCommonModels [nodeNullParent] := by
  have h := no_parent_is_root srcCyc 0 nodeNullParent
    (Or.inr (Or.inr rfl))
  exact ⟨h.1, h.2.1, h.2.2.1, h.2.2.2.1 [nodeNullParent] (List.mem_cons_self _ _)⟩

theorem childProdTrace_mem_of {src : Source} {env : DestEnv} {c : String}
    {q : Product} (hq : q ∈ FindProductsByParent src c)
    (hid : getStrD q "identifier" ≠ "") :
    WriteEvent.saveProduct (getStrD q "identifier") q
      (!env.failP (getStrD q "identifier") q) ∈ childProdTrace src env c := by
  unfold childProdTrace
  refine List.mem_filterMap.mpr ⟨q, hq, ?_⟩
  unfold prodEvent
  simp [hid]

theorem variantTrace_mem_of {src : Source} {env : DestEnv} {root : String}
    {g q : Product} (hg : g ∈ FindModelsByParent src root)
    (hcode : getStrD g "code" ≠ "")
    (hq : q ∈ FindProductsByParent src (getStrD g "code"))
    (hid : getStrD q "identifier" ≠ "") :
    WriteEvent.saveProduct (getStrD q "identifier") q
      (!env.failP (getStrD q "identifier") q) ∈ variantTrace src env root := by
  unfold variantTrace
  refine List.mem_flatMap.mpr ⟨g, hg, ?_⟩
  rw [if_neg hcode]
  exact childProdTrace_mem_of hq hid

/-- Claim C1 (amended): for a root key that the copier resolves through the
fallback branch as a product model, one call writes the root model first,
writes every child model whose parent equals the root key (and whose code is
a nonempty string), and, for each such child model, writes every product
whose parent equals the code of that child (and whose identifier is a nonempty
string), so each of those leaves ends up stored in the destination.  Leaves
whose declared parent is the root model itself are not copied —
`syncVariantProducts` lists only the variants of the child models — which is
the single change the counterexample forces on the frozen claim. -/
theorem copyHierarchy_model_branch_coverage (src : Source) (d : Dest)
    (root : String) (m : Product)
    (hp : FindByIdentifier src root = none)
    (hm : FindModelByCode src root = some m) :
    (hierSync src envOK d root).2.2.head? =
      some (WriteEvent.saveModel root m true) ∧
    ∀ g ∈ FindModelsByParent src root, getStrD g "code" ≠ "" →
      WriteEvent.saveModel (getStrD g "code") g true ∈
        (hierSync src envOK d root).2.2 ∧
      ∀ q ∈ FindProductsByParent src (getStrD g "code"),
        getStrD q "identifier" ≠ "" →
          WriteEvent.saveProduct (getStrD q "identifier") q true ∈
            (hierSync src envOK d root).2.2 ∧
          ((hierSync src envOK d root).2.1.products
            (getStrD q "identifier")).isSome = true := by
  have htr : (hierSync src envOK d root).2.2 =
      WriteEvent.saveModel root m true ::
        (childModelTrace src envOK root ++ variantTrace src envOK root) := by
    rw [hierSync_eq]
    show hierTrace src envOK root = _
    unfold hierTrace
    rw [hp, hm]
    rfl
  have hdest : (hierSync src envOK d root).2.1 =
      destApplyAll d (hierSync src envOK d root).2.2 := by
    rw [hierSync_eq]
  constructor
  · rw [htr]; rfl
  · intro g hg hcode
    have hgev : WriteEvent.saveModel (getStrD g "code") g true ∈
        (hierSync src envOK d root).2.2 := by
      rw [htr]
      refine List.mem_cons_of_mem _ (List.mem_append.mpr (Or.inl ?_))
      have := @childModelTrace_mem_of src envOK _ _ hg hcode
      simpa [envOK] using this
    refine ⟨hgev, ?_⟩
    intro q hq hid
    have hqev : WriteEvent.saveProduct (getStrD q "identifier") q true ∈
        (hierSync src envOK d root).2.2 := by
      rw [htr]
      refine List.mem_cons_of_mem _ (List.mem_append.mpr (Or.inr ?_))
      have := @variantTrace_mem_of src envOK _ _ _ hg hcode hq hid
      simpa [envOK] using this
    refine ⟨hqev, ?_⟩
    rw [hdest]
    exact destApplyAll_products_isSome hqev d

/-- Claim C3 (amended): a destination write failure on one child node is
caught individually and does not prevent the copier from attempting every
sibling and the rest of the tree — every child with a usable key receives a
write attempt whatever the failure policy does to the other nodes, and the
copy still returns successfully.  But a failed child contributes no entry to
any error list: the result of the copier carries no error records (the Go loop
only logs the failure and continues), so the error list of the run receives zero
entries per failed child, not exactly one as the frozen claim states; only a
failure on the root node itself aborts the copy with an error. -/
theorem child_write_failure_isolated (src : Source) (env : DestEnv) (d : Dest)
    (root : String) :
    (∀ p, FindByIdentifier src root = some p → env.failP root p = false →
      (∃ r, (hierSync src env d root).1 = Except.ok r) ∧
      ∀ q ∈ FindProductsByParent src root, getStrD q "identifier" ≠ "" →
        WriteEvent.saveProduct (getStrD q "identifier") q
          (!env.failP (getStrD q "identifier") q) ∈ (hierSync src env d root).2.2) ∧
    (∀ m, FindByIdentifier src root = none → FindModelByCode src root = some m →
      env.failM root m = false →
      (∃ r, (hierSync src env d root).1 = Except.ok r) ∧
      ∀ g ∈ FindModelsByParent src root, getStrD g "code" ≠ "" →
        (WriteEvent.saveModel (getStrD g "code") g
          (!env.failM (getStrD g "code") g) ∈ (hierSync src env d root).2.2 ∧
        ∀ q ∈ FindProductsByParent src (getStrD g "code"),
          getStrD q "identifier" ≠ "" →
            WriteEvent.saveProduct (getStrD q "identifier") q
              (!env.failP (getStrD q "identifier") q) ∈
              (hierSync src env d root).2.2)) := by
  constructor
  · intro p hp hf
    have htr : (hierSync src env d root).2.2 =
        WriteEvent.saveProduct root p true :: childProdTrace src env root := by
      rw [hierSync_eq]
      show hierTrace src env root = _
      unfold hierTrace
      simp only [hp, hf, Bool.false_eq_true, if_false]
    constructor
    · rw [hierSync_eq]
      show ∃ r, hierResultPure src env root = Except.ok r
      unfold hierResultPure
      simp only [hp, hf, Bool.false_eq_true, if_false]
      exact ⟨_, rfl⟩
    · intro q hq hid
      rw [htr]
      exact List.mem_cons_of_mem _ (childProdTrace_mem_of hq hid)
  · intro m hp hm hf
    have htr : (hierSync src env d root).2.2 =
        WriteEvent.saveModel root m true ::
          (childModelTrace src env root ++ variantTrace src env root) := by
      rw [hierSync_eq]
      show hierTrace src env root = _
      unfold hierTrace
      simp only [hp, hm, hf, Bool.false_eq_true, if_false]
    constructor
    · rw [hierSync_eq]
      show ∃ r, hierResultPure src env root = Except.ok r
      unfold hierResultPure
      simp only [hp, hm, hf, Bool.false_eq_true, if_false]
      exact ⟨_, rfl⟩
    · intro g hg hcode
      constructor
      · rw [htr]
        exact List.mem_cons_of_mem _
          (List.mem_append.mpr (Or.inl (childModelTrace_mem_of hg hcode)))
      · intro q hq hid
        rw [htr]
        exact List.mem_cons_of_mem _
          (List.mem_append.mpr (Or.inr (variantTrace_mem_of hg hcode hq hid)))

/-! ### The per-run dedup gate -/

/-- Number of successful hierarchy-copy invocations for root key `k`
recorded in the call list of a run. -/
def succCallsFor (k : String) (calls : List (String × Bool)) : Nat :=
  (calls.filter (fun c => c.1 == k && c.2)).length

/-- After the first successful copy call for key `k`, no further copy call
(successful or failed) targets `k`. -/
def noCallAfterSuccess (k : String) : List (String × Bool) → Bool
  | [] => true
  | c :: rest =>
      if c.1 == k && c.2 then rest.all (fun c2 => !(c2.1 == k))
      else noCallAfterSuccess k rest

theorem succCallsFor_snoc (k : String) (xs : List (String × Bool))
    (c : String × Bool) :
    succCallsFor k (xs ++ [c]) =
      succCallsFor k xs + (if c.1 == k && c.2 then 1 else 0) := by
  unfold succCallsFor
  rw [List.filter_append, List.length_append]
  by_cases h : (c.1 == k && c.2) = true <;> simp [h]

theorem noCallAfterSuccess_snoc_ne {k : String} {xs : List (String × Bool)}
    {c : String × Bool} (hx : noCallAfterSuccess k xs = true)
    (hc : (c.1 == k) = false) :
    noCallAfterSuccess k (xs ++ [c]) = true := by
  induction xs with
  | nil => simp [noCallAfterSuccess, hc]
  | cons x xs ih =>
      rw [List.cons_append]
      simp only [noCallAfterSuccess] at hx ⊢
      by_cases hx1 : (x.1 == k && x.2) = true
      · rw [if_pos hx1] at hx ⊢
        rw [List.all_append]
        simp [hx, hc]
      · rw [if_neg hx1] at hx ⊢
        exact ih hx

theorem noCallAfterSuccess_snoc_fresh {k : String} {xs : List (String × Bool)}
    (hx : succCallsFor k xs = 0) (c : String × Bool) :
    noCallAfterSuccess k (xs ++ [c]) = true := by
  induction xs with
  | nil =>
      unfold noCallAfterSuccess
      by_cases h : (c.1 == k && c.2) = true <;> simp [h, noCallAfterSuccess]
  | cons x xs ih =>
      unfold succCallsFor at hx
      rw [List.filter_cons] at hx
      by_cases hx1 : (x.1 == k && x.2) = true
      · rw [if_pos hx1] at hx
        simp at hx
      · rw [if_neg hx1] at hx
        rw [List.cons_append]
        simp only [noCallAfterSuccess]
        rw [if_neg hx1]
        exact ih hx

/-- The gate invariant for one key: the key is in the dedup set exactly when
one successful copy for it happened, and no copy call for the key follows a
successful one. -/
def gateInv (k : String) (st : RunState) : Prop :=
  ((st.synced.contains k = true ∧ succCallsFor k st.copyCalls = 1) ∨
    (st.synced.contains k = false ∧ succCallsFor k st.copyCalls = 0)) ∧
  noCallAfterSuccess k st.copyCalls = true

theorem gateInv_update_skip {k : String} {st : RunState}
    (h : gateInv k st) {synced2 : List String} {calls2 : List (String × Bool)}
    (hs : synced2 = st.synced) (hc : calls2 = st.copyCalls)
    (st2 : RunState) (h2 : st2.synced = synced2) (h3 : st2.copyCalls = calls2) :
    gateInv k st2 := by
  unfold gateInv at h ⊢
  rw [h2, h3, hs, hc]
  exact h

theorem gateInv_call {k root : String} {st : RunState} (h : gateInv k st)
    (hfresh : st.synced.contains root = false) (b : Bool)
    (st2 : RunState)
    (h2 : st2.synced = (if b then root :: st.synced else st.synced))
    (h3 : st2.copyCalls = st.copyCalls ++ [(root, b)]) :
    gateInv k st2 := by
  rcases h with ⟨hd, hn⟩
  by_cases hk : (root == k) = true
  · have hkeq : root = k := beq_iff_eq.mp hk
    subst hkeq
    have h0 : succCallsFor root st.copyCalls = 0 := by
      rcases hd with ⟨h1, _⟩ | ⟨_, h2⟩
      · rw [hfresh] at h1; cases h1
      · exact h2
    constructor
    · rw [h2, h3, succCallsFor_snoc, h0]
      cases b with
      | true =>
          refine Or.inl ⟨?_, by simp⟩
          simp [List.contains_cons]
      | false =>
          refine Or.inr ⟨?_, by simp⟩
          simp only [Bool.false_eq_true, if_false]
          exact hfresh
    · rw [h3]
      exact noCallAfterSuccess_snoc_fresh h0 _
  · have hkf : (root == k) = false := by
      cases hkk : (root == k) with
      | true => exact absurd hkk hk
      | false => rfl
    have hne : root ≠ k := by
      intro h
      rw [h] at hkf
      simp at hkf
    constructor
    · rw [h2, h3, succCallsFor_snoc]
      have hck : ((root, b).1 == k && (root, b).2) = false := by
        simp [hkf]
      rw [hck]
      simp only [Bool.false_eq_true, if_false, Nat.add_zero]
      cases b with
      | true =>
          have hcc : (root :: st.synced).contains k = st.synced.contains k := by
            rw [List.contains_cons]
            have hkr : (k == root) = false := by
              cases hkk : (k == root) with
              | true => exact absurd (beq_iff_eq.mp hkk).symm hne
              | false => rfl
            rw [hkr]
            simp
          simp only [if_true, hcc]
          exact hd
      | false => simpa using hd
    · rw [h3]
      exact noCallAfterSuccess_snoc_ne hn hkf

theorem processModel_gateInv (src : Source) (env : DestEnv) (fuel : Nat)
    (k : String) (st : RunState) (model : Product) (h : gateInv k st) :
    gateInv k (processModel src env fuel st model) := by
  unfold processModel
  cases hcode : getStr model "code" with
  | none => exact gateInv_update_skip h rfl rfl _ rfl rfl
  | some code =>
      by_cases hc : st.synced.contains (findModelRoot src fuel model) = true
      · simp only [hc, if_true]
        exact h
      · have hc2 : st.synced.contains (findModelRoot src fuel model) = false := by
          cases hcc : st.synced.contains (findModelRoot src fuel model) with
          | true => exact absurd hcc hc
          | false => rfl
        simp only [hc2, Bool.false_eq_true, if_false]
        rcases hout : hierSync src env st.dest (findModelRoot src fuel model)
          with ⟨res, d2, tr⟩
        cases res with
        | error e =>
            exact gateInv_call h hc2 false _ (by simp) rfl
        | ok r =>
            exact gateInv_call h hc2 true _ (by simp) rfl

theorem processProduct_gateInv (src : Source) (env : DestEnv) (fuel : Nat)
    (k : String) (st : RunState) (prod : Product) (h : gateInv k st) :
    gateInv k (processProduct src env fuel st prod) := by
  unfold processProduct
  cases hcode : getStr prod "identifier" with
  | none => exact gateInv_update_skip h rfl rfl _ rfl rfl
  | some code =>
      by_cases hc : st.synced.contains (findProductRoot src fuel prod) = true
      · simp only [hc, if_true]
        exact h
      · have hc2 : st.synced.contains (findProductRoot src fuel prod) = false := by
          cases hcc : st.synced.contains (findProductRoot src fuel prod) with
          | true => exact absurd hcc hc
          | false => rfl
        simp only [hc2, Bool.false_eq_true, if_false]
        rcases hout : hierSync src env st.dest (findProductRoot src fuel prod)
          with ⟨res, d2, tr⟩
        cases res with
        | error e =>
            exact gateInv_call h hc2 false _ (by simp) rfl
        | ok r =>
            exact gateInv_call h hc2 true _ (by simp) rfl

theorem foldl_preserves {α : Type} (P : RunState → Prop)
    (f : RunState → α → RunState) (hf : ∀ st a, P st → P (f st a)) :
    ∀ (l : List α) (st : RunState), P st → P (l.foldl f st) := by
  intro l
  induction l with
  | nil => intro st h; exact h
  | cons a l ih => intro st h; exact ih _ (hf st a h)

theorem syncSince_gateInv (src : Source) (env : DestEnv) (fuel : Nat)
    (feeds : Feeds) (updatedSince : String) (d : Dest) (k : String) :
    gateInv k (syncSince src env fuel feeds updatedSince d).2 := by
  have h0 : gateInv k (initRunState d) := by
    refine ⟨Or.inr ⟨rfl, rfl⟩, rfl⟩
  have h1 : gateInv k (feeds.modelBatches.foldl
      (fun st batch => batch.foldl (processModel src env fuel) st)
      (initRunState d)) :=
    foldl_preserves _ _
      (fun st batch hb =>
        foldl_preserves _ _ (processModel_gateInv src env fuel k) batch st hb)
      feeds.modelBatches (initRunState d) h0
  have h2 : gateInv k (feeds.productBatches.foldl
      (fun st batch => batch.foldl (processProduct src env fuel) st)
      (feeds.modelBatches.foldl
        (fun st batch => batch.foldl (processModel src env fuel) st)
        (initRunState d))) :=
    foldl_preserves _ _
      (fun st batch hb =>
        foldl_preserves _ _ (processProduct_gateInv src env fuel k) batch st hb)
      feeds.productBatches _ h1
  unfold syncSince streamSince
  cases feeds.modelPageErr with
  | some e => exact h1
  | none =>
      cases feeds.productPageErr with
      | some e => exact h2
      | none => exact h2

/-- Claim C4 (amended): during one orchestrator run, each distinct resolved
root key is copied successfully at most once, and after a successful copy of
a key the dedup gate answers negatively on every later occurrence, so no
further copy call for that key happens at all.  However, a failed copy does
not mark the key as synced, so later occurrences of the same key invoke the
copier again — the gate does not answer negatively on every occurrence after
the first, as the frozen claim states (see the counterexample). -/
theorem dedup_one_successful_copy_per_root (src : Source) (env : DestEnv)
    (fuel : Nat) (feeds : Feeds) (updatedSince : String) (d : Dest) (k : String) :
    succCallsFor k (syncSince src env fuel feeds updatedSince d).2.copyCalls ≤ 1 ∧
    noCallAfterSuccess k
      (syncSince src env fuel feeds updatedSince d).2.copyCalls = true := by
  rcases syncSince_gateInv src env fuel feeds updatedSince d k with ⟨hd, hn⟩
  refine ⟨?_, hn⟩
  rcases hd with ⟨_, h1⟩ | ⟨_, h0⟩
  · omega
  · omega

/-- Claim C7 (amended): the orchestrator returns a Go error — and no
`SyncResult` — exactly when one of the two change-stream paginations fails to
fetch a page; when both streams end cleanly the aggregate result is always
returned, built from the final run state with `success` true exactly when
the error list is empty.  Failures while copying one hierarchy never escape:
a root-level copy failure and a malformed node are recorded in the error
list, while a child-level write failure is only logged and recorded nowhere
(see the counterexample), which is the correction to the frozen claim. -/
theorem syncSince_error_iff_page_failure (src : Source) (env : DestEnv)
    (fuel : Nat) (feeds : Feeds) (updatedSince : String) (d : Dest) :
    ((syncSince src env fuel feeds updatedSince d).1.isOk =
      (feeds.modelPageErr.isNone && feeds.productPageErr.isNone)) ∧
    (∀ mB pB : List (List Product),
      (syncSince src env fuel
          { modelBatches := mB, modelPageErr := none,
            productBatches := pB, productPageErr := none } updatedSince d).1 =
        Except.ok (mkOrchResult updatedSince
          (syncSince src env fuel
            { modelBatches := mB, modelPageErr := none,
              productBatches := pB, productPageErr := none } updatedSince d).2)) := by
  constructor
  · unfold syncSince streamSince
    cases feeds.modelPageErr with
    | some e => rfl
    | none =>
        cases feeds.productPageErr with
        | some e => rfl
        | none => rfl
  · intro mB pB
    rfl

/-! ### Concrete scenarios -/

/-- The root model `R` of the three-level test scenario. -/
def mR : Product := [("code", AttrVal.str "R")]

/-- Child model `G1` of root `R`. -/
def mG1 : Product := [("code", AttrVal.str "G1"), ("parent", AttrVal.str "R")]

/-- Child model `G2` of root `R`. -/
def mG2 : Product := [("code", AttrVal.str "G2"), ("parent", AttrVal.str "R")]

/-- Leaf `L1` under group `G1`. -/
def pL1 : Product := [("identifier", AttrVal.str "L1"), ("parent", AttrVal.str "G1")]

/-- Leaf `L2` under group `G1`. -/
def pL2 : Product := [("identifier", AttrVal.str "L2"), ("parent", AttrVal.str "G1")]

/-- The test scenario of the spec: root `R` with groups `G1`, `G2`; `G1` has
leaves `L1`, `L2`. -/
def srcThree : Source := { products := [pL1, pL2], models := [mR, mG1, mG2] }

/-- The change feeds of the scenario: the group stream yields `G1`, the leaf
stream yields `L1`. -/
def feedsThree : Feeds :=
  { modelBatches := [[mG1]], modelPageErr := none,
    productBatches := [[pL1]], productPageErr := none }

/-- Claim C6 counterexample: in the scenario of the spec the run reports
groups-synced 3 — the root `R` and both child groups `G1` and `G2` are
counted — not 2 as the frozen claim expects. -/
theorem scenario_models_synced_ne_two :
    (syncSince srcThree envOK 50 feedsThree "2024-01-01" destEmpty).2.modelsSynced ≠ 2 := by
  decide

/-- Claim C6 (amended): in the scenario both triggering nodes resolve to
root `R`, exactly one hierarchy copy is invoked (and it succeeds), no error
is recorded, and the aggregate counts are groups-synced = 3 (`R`, `G1`,
`G2`) and leaves-synced = 2 (`L1`, `L2`). -/
theorem scenario_counts :
    findModelRoot srcThree 50 mG1 = "R" ∧
    findProductRoot srcThree 50 pL1 = "R" ∧
    (syncSince srcThree envOK 50 feedsThree "2024-01-01" destEmpty).2.copyCalls =
      [("R", true)] ∧
    (syncSince srcThree envOK 50 feedsThree "2024-01-01" destEmpty).2.modelsSynced = 3 ∧
    (syncSince srcThree envOK 50 feedsThree "2024-01-01" destEmpty).2.productsSynced = 2 ∧
    (syncSince srcThree envOK 50 feedsThree "2024-01-01" destEmpty).2.errors = [] := by
  decide

/-- A destination that rejects every write of the root model `R`. -/
def envFailRootR : DestEnv :=
  { failP := fun _ _ => false, failM := fun k _ => k == "R" }

/-- Change feeds yielding the two sibling groups `G1` and `G2` in separate
batches; both resolve to the root `R`. -/
def feedsTwoGroups : Feeds :=
  { modelBatches := [[mG1], [mG2]], modelPageErr := none,
    productBatches := [], productPageErr := none }

/-- Claim C4 counterexample: when the copy of root `R` fails on its first
occurrence, the key is not marked as synced, and the second occurrence of
the same resolved root invokes the hierarchy copy again — two copy calls for
one distinct key in one run, so the gate does not answer negatively on every
later occurrence. -/
theorem dedup_retries_failed_root :
    (syncSince srcThree envFailRootR 50 feedsTwoGroups "2024-01-01" destEmpty).2.copyCalls =
      [("R", false), ("R", false)] := by
  decide

/-- Witness for the amended theorem of claim C4 at the concrete retry scenario. -/
theorem dedup_one_successful_copy_per_root_witness :
    succCallsFor "R"
      (syncSince srcThree envFailRootR 50 feedsTwoGroups "2024-01-01" destEmpty).2.copyCalls ≤ 1 ∧
    noCallAfterSuccess "R"
      (syncSince srcThree envFailRootR 50 feedsTwoGroups "2024-01-01" destEmpty).2.copyCalls = true :=
  dedup_one_successful_copy_per_root srcThree envFailRootR 50 feedsTwoGroups
    "2024-01-01" destEmpty "R"

/-- A root-of-groups model with no children of its own. -/
def mRootOnly : Product := [("code", AttrVal.str "R")]

/-- A leaf product attached directly to the root model `R`. -/
def pDirectLeaf : Product :=
  [("identifier", AttrVal.str "L"), ("parent", AttrVal.str "R")]

/-- A source whose only leaf hangs directly under the root model. -/
def srcDirectLeaf : Source := { products := [pDirectLeaf], models := [mRootOnly] }

/-- Claim C1 counterexample: `R` resolves through the fallback branch as a
model, the leaf `L` declares the root group `R` itself as parent, yet after
the copy the destination holds nothing under `L` and the write sequence
consists of the root write alone — leaves attached to the root group itself
are never copied. -/
theorem root_level_leaf_not_copied :
    FindByIdentifier srcDirectLeaf "R" = none ∧
    FindModelByCode srcDirectLeaf "R" = some mRootOnly ∧
    pDirectLeaf ∈ FindProductsByParent srcDirectLeaf "R" ∧
    (hierSync srcDirectLeaf envOK destEmpty "R").2.1.products "L" = none ∧
    (hierSync srcDirectLeaf envOK destEmpty "R").2.2 =
      [WriteEvent.saveModel "R" mRootOnly true] := by
  decide

/-- The root model of the witness hierarchy. -/
def mRw : Product := [("code", AttrVal.str "Rw")]

/-- The child group of the witness hierarchy. -/
def mGw : Product := [("code", AttrVal.str "Gw"), ("parent", AttrVal.str "Rw")]

/-- The leaf under the child group of the witness hierarchy. -/
def pLw : Product := [("identifier", AttrVal.str "Lw"), ("parent", AttrVal.str "Gw")]

/-- A witness source: root `Rw` → group `Gw` → leaf `Lw`. -/
def srcW : Source := { products := [pLw], models := [mRw, mGw] }

/-- Witness for the amended theorem of claim C1: in the concrete three-level
hierarchy the child group and its leaf are written and the leaf is stored. -/
theorem copyHierarchy_model_branch_coverage_witness :
    WriteEvent.saveModel "Gw" mGw true ∈ (hierSync srcW envOK destEmpty "Rw").2.2 ∧
    WriteEvent.saveProduct "Lw" pLw true ∈ (hierSync srcW envOK destEmpty "Rw").2.2 ∧
    ((hierSync srcW envOK destEmpty "Rw").2.1.products "Lw").isSome = true := by
  have h := copyHierarchy_model_branch_coverage srcW destEmpty "Rw" mRw
    (by decide) (by decide)
  have hg := h.2 mGw (by decide) (by decide)
  have hq := hg.2 pLw (by decide) (by decide)
  exact ⟨hg.1, hq.1, hq.2⟩

/-- Witness for claim C2 at the concrete three-level hierarchy. -/
theorem copyHierarchy_write_order_witness :
    writeOrderOK "Rw" (hierSync srcW envOK destEmpty "Rw").2.2 = true :=
  copyHierarchy_write_order srcW envOK destEmpty "Rw"

/-- Witness for claim C8 at the concrete three-level hierarchy. -/
theorem copyHierarchy_idempotent_witness :
    hierSync srcW envOK (hierSync srcW envOK destEmpty "Rw").2.1 "Rw" =
      ((hierSync srcW envOK destEmpty "Rw").1,
        (hierSync srcW envOK destEmpty "Rw").2.1,
        (hierSync srcW envOK destEmpty "Rw").2.2) :=
  copyHierarchy_idempotent srcW envOK destEmpty "Rw"

/-- The root product of the sibling-failure scenario. -/
def pRootS : Product := [("identifier", AttrVal.str "r3")]

/-- Child product `a3` of root `r3`; its destination write will fail. -/
def pAS : Product := [("identifier", AttrVal.str "a3"), ("parent", AttrVal.str "r3")]

/-- Child product `b3` of root `r3`, sibling of `a3`. -/
def pBS : Product := [("identifier", AttrVal.str "b3"), ("parent", AttrVal.str "r3")]

/-- A flat two-level source: root product `r3` with children `a3`, `b3`. -/
def srcSib : Source := { products := [pRootS, pAS, pBS], models := [] }

/-- A destination that rejects exactly the write of product `a3`. -/
def envFailA : DestEnv :=
  { failP := fun k _ => k == "a3", failM := fun _ _ => false }

/-- The change feed yielding the root product `r3`. -/
def feedsSib : Feeds :=
  { modelBatches := [], modelPageErr := none,
    productBatches := [[pRootS]], productPageErr := none }

/-- Claim C3 counterexample: the destination rejects child `a3`; the failed
write is attempted and its sibling `b3` is still written (isolation holds),
but the error list of the run stays empty — the failed node contributes zero
entries, not exactly one as the frozen claim states. -/
theorem failed_child_leaves_error_list_empty :
    WriteEvent.saveProduct "a3" pAS false ∈
      (syncSince srcSib envFailA 50 feedsSib "2024-01-01" destEmpty).2.trace ∧
    WriteEvent.saveProduct "b3" pBS true ∈
      (syncSince srcSib envFailA 50 feedsSib "2024-01-01" destEmpty).2.trace ∧
    (syncSince srcSib envFailA 50 feedsSib "2024-01-01" destEmpty).2.errors = [] := by
  decide

/-- Witness for the amended theorem of claim C3: in the sibling-failure scenario
the copy still succeeds and the healthy sibling is written. -/
theorem child_write_failure_isolated_witness :
    (∃ r, (hierSync srcSib envFailA destEmpty "r3").1 = Except.ok r) ∧
    WriteEvent.saveProduct "b3" pBS true ∈
      (hierSync srcSib envFailA destEmpty "r3").2.2 := by
  have h := (child_write_failure_isolated srcSib envFailA destEmpty "r3").1
    pRootS (by decide) (by decide)
  exact ⟨h.1, h.2 pBS (by decide) (by decide)⟩

/-- Claim C7 counterexample: with a failing child write the run returns the
aggregate result (no Go error), the error list is empty and `success` is
true even though a destination write failed — the local copy failure was not
recorded in the error list of the result. -/
theorem local_failure_not_recorded :
    (syncSince srcSib envFailA 50 feedsSib "2024-01-01" destEmpty).1.isOk = true ∧
    (syncSince srcSib envFailA 50 feedsSib "2024-01-01" destEmpty).2.errors = [] ∧
    WriteEvent.saveProduct "a3" pAS false ∈
      (syncSince srcSib envFailA 50 feedsSib "2024-01-01" destEmpty).2.trace := by
  decide

/-- Witness for the amended theorem of claim C7: a model-stream page failure
makes the run return a Go error. -/
theorem syncSince_error_iff_page_failure_witness :
    (syncSince srcSib envFailA 50
      { modelBatches := [], modelPageErr := some "boom",
        productBatches := [], productPageErr := none } "2024-01-01" destEmpty).1.isOk
      = false :=
  (syncSince_error_iff_page_failure srcSib envFailA 50
    { modelBatches := [], modelPageErr := some "boom",
      productBatches := [], productPageErr := none } "2024-01-01" destEmpty).1

/-- A payload holding a null-valued attribute outside the deny-list. -/
def pNullAttr : Product := [("name", AttrVal.null), ("sku", AttrVal.str "x")]

/-- Claim C9 counterexample: the attribute `name` is not one of the
deny-listed volatile fields, yet `cleanProduct` / `cleanProductModel` drop
it because its value is null — so more than the deny-listed fields are
removed from the transmitted payload. -/
theorem clean_drops_null_valued_keys :
    ("name" ∈ excludedFields → False) ∧
    ("name", AttrVal.null) ∈ pNullAttr ∧
    (cleanProduct pNullAttr).lookup "name" = none ∧
    (cleanProductModel pNullAttr).lookup "name" = none ∧
    cleanProduct pNullAttr = [("sku", AttrVal.str "x")] := by
  decide

/-- Witness for the amended theorem of claim C9 at a concrete payload. -/
theorem cleaned_payload_exact_witness :
    ("sku", AttrVal.str "x") ∈ cleanProduct pNullAttr :=
  (cleaned_payload_exact pNullAttr "sku" (AttrVal.str "x")).1.mpr (by decide)

/-- Witness for the amended theorem of claim C5 at a concrete step budget. -/
theorem findRoot_diverges_on_cycle_witness :
    findModelRootFuel srcCyc 7 cycA = none ∧
    findProductRootFuel srcCyc 7 cycP1 = none :=
  findRoot_diverges_on_cycle 7

end Migrator
